import Mathlib

/-!
Verification of `generate_icons.py`: a script that draws flat-top hexagon
icons (with an optional red halo for the "active" state) at sizes 16, 48 and
128 and writes them as PNG files under `assets/`.

The vertex geometry, the draw-call trace, the driver loop and the
filesystem effect are embedded directly from the source.  PIL's
`Image.new`/`ImageDraw.polygon`/`Image.save` implementations are not part of
this repository; their effect is modelled from the spec (a transparent
`size × size` canvas, filled-polygon rasterization, lossless persistence of
the raster) as coverage by the convex hull of the polygon's vertices, which
is exact for the convex hexagons drawn here.
-/

namespace BggIcons

/-- An RGBA color quadruple, each channel `0..255`. -/
structure RGBA where
  r : ℕ
  g : ℕ
  b : ℕ
  a : ℕ
deriving DecidableEq, Repr

/-- `math.radians`: degrees to radians. -/
noncomputable def radians (deg : ℝ) : ℝ := deg * Real.pi / 180

/-- The six hexagon vertices computed by the loops at lines 17–22 and 26–31 of
`generate_icons.py`: for `i` in `range(6)`, `angle_deg = 60*i - 30`,
`angle_rad = radians(angle_deg)`, vertex
`(cx + r*cos(angle_rad), cy + r*sin(angle_rad))`. -/
noncomputable def hexPoints (cx cy : ℝ) (r : ℝ) : List (ℝ × ℝ) :=
  (List.range 6).map fun (i : ℕ) =>
    let angle_deg : ℤ := 60 * (i : ℤ) - 30
    let angle_rad : ℝ := radians angle_deg
    (cx + r * Real.cos angle_rad, cy + r * Real.sin angle_rad)

/-- One `draw.polygon(points, fill=..., outline=...)` call. -/
structure PolygonOp where
  points : List (ℝ × ℝ)
  fill : RGBA
  outline : Option RGBA

/-- The fully transparent background color `(0, 0, 0, 0)` of `Image.new`. -/
def bgColor : RGBA := ⟨0, 0, 0, 0⟩

/-- The opaque red `(255, 0, 0, 255)` used for the halo. -/
def redColor : RGBA := ⟨255, 0, 0, 255⟩

/-- The trace of `draw.polygon` calls issued by `create_hexagon_icon`
(lines 6–33): with `has_halo`, first the halo hexagon of radius `radius + 2`
filled and outlined red, then the primary hexagon of radius
`radius = size // 2 - 1` filled with `color`; without `has_halo`, only the
primary hexagon.  Both hexagons are centered at `(size // 2, size // 2)`. -/
noncomputable def create_hexagon_icon_ops (size : ℕ) (color : RGBA)
    (has_halo : Bool) : List PolygonOp :=
  let center_x : ℕ := size / 2
  let center_y : ℕ := size / 2
  let radius : ℤ := ((size / 2 : ℕ) : ℤ) - 1
  let haloOps : List PolygonOp :=
    if has_halo then
      [⟨hexPoints center_x center_y ((radius + 2 : ℤ) : ℝ), redColor, some redColor⟩]
    else []
  haloOps ++ [⟨hexPoints center_x center_y (radius : ℝ), color, none⟩]

open Classical in
/-- Modelled from the spec: PIL's filled-polygon rasterizer is not part of
this repository.  Following the spec's step "rasterize ... as a filled
polygon", a canvas point is painted by a `draw.polygon` call exactly when it
lies in the convex hull of the call's vertices (exact for the convex
hexagons drawn here; the same-color outline paints only boundary points,
which the closed hull already contains).  Later calls paint over earlier
ones. -/
noncomputable def renderOps (ops : List PolygonOp) (bg : RGBA) (p : ℝ × ℝ) : RGBA :=
  ops.foldl
    (fun acc op =>
      if p ∈ convexHull ℝ {q : ℝ × ℝ | q ∈ op.points} then op.fill else acc)
    bg

/-- A raster image: pixel dimensions plus the color at each integer pixel
coordinate. -/
structure Img where
  width : ℕ
  height : ℕ
  pixel : ℕ → ℕ → RGBA

/-- Modelled from the spec: `Image.new('RGBA', (size, size), (0, 0, 0, 0))`
allocates a square `size × size` canvas whose every pixel is the fully
transparent `(0, 0, 0, 0)`. -/
def Image_new (size : ℕ) : Img :=
  ⟨size, size, fun _ _ => bgColor⟩

/-- `create_hexagon_icon size color has_halo`: the image persisted by
`img.save(filename)` — the `size × size` canvas of `Image.new` with the trace
of `draw.polygon` calls rendered onto it (the PNG encoding is lossless, so
the file content is identified with the raster). -/
noncomputable def create_hexagon_icon (size : ℕ) (color : RGBA)
    (has_halo : Bool) : Img :=
  { width := (Image_new size).width
    height := (Image_new size).height
    pixel := fun x y =>
      renderOps (create_hexagon_icon_ops size color has_halo)
        ((Image_new size).pixel x y) ((x : ℝ), (y : ℝ)) }

/-- The fixed size list `sizes = [16, 48, 128]` (line 37). -/
def sizes : List ℕ := [16, 48, 128]

/-- `green_color = (0, 128, 0, 255)` (line 38). -/
def green_color : RGBA := ⟨0, 128, 0, 255⟩

/-- `output_dir = "assets/"` (line 42). -/
def output_dir : String := "assets/"

/-- Modelled from the spec: `os.path.join(dir, name)` with the first argument
ending in the path separator `/` (as `output_dir` does) concatenates the two
components. -/
def os_path_join (d f : String) : String := d ++ f

/-- The driver loop (lines 46–57): for each size in `sizes`, the filename and
image written, where `generate_active` is decided by `'--active' in sys.argv`. -/
noncomputable def generatedFiles (argv : List String) : List (String × Img) :=
  let generate_active : Bool := decide ("--active" ∈ argv)
  sizes.map fun size =>
    if generate_active then
      (os_path_join output_dir ("icon" ++ toString size ++ "_active.png"),
       create_hexagon_icon size green_color true)
    else
      (os_path_join output_dir ("icon" ++ toString size ++ ".png"),
       create_hexagon_icon size green_color false)

/-- A filesystem: a map from path to file content (the raster image). -/
def FS : Type := String → Option Img

/-- Write one file. -/
noncomputable def fsWrite (fs : FS) (name : String) (img : Img) : FS :=
  fun k => if k = name then some img else fs k

/-- Write a list of files in order (later writes shadow earlier ones). -/
noncomputable def fsWriteAll (fs : FS) (l : List (String × Img)) : FS :=
  l.foldl (fun f p => fsWrite f p.1 p.2) fs

/-- One invocation of the script with argument list `argv`, as its effect on
the filesystem: it reads nothing and writes each generated file. -/
noncomputable def runScript (argv : List String) (fs : FS) : FS :=
  fsWriteAll fs (generatedFiles argv)

/-- The primary-vertex formula exactly as the spec states it: center
`(size // 2, size // 2)`, radius `size // 2 - 1`, vertex `i` at angle
`60*i - 30` degrees converted to radians. -/
noncomputable def specPrimaryVertex (size : ℕ) (i : ℕ) : ℝ × ℝ :=
  (((size / 2 : ℕ) : ℝ) +
     (((size / 2 : ℕ) : ℝ) - 1) * Real.cos (radians (60 * (i : ℝ) - 30)),
   ((size / 2 : ℕ) : ℝ) +
     (((size / 2 : ℕ) : ℝ) - 1) * Real.sin (radians (60 * (i : ℝ) - 30)))

/-! Closed forms for the six vertex angles -/

lemma cos_radians_neg30 : Real.cos (radians (-30)) = Real.sqrt 3 / 2 := by
  have h : radians (-30) = -(Real.pi / 6) := by unfold radians; ring
  rw [h, Real.cos_neg, Real.cos_pi_div_six]

lemma sin_radians_neg30 : Real.sin (radians (-30)) = -(1 / 2) := by
  have h : radians (-30) = -(Real.pi / 6) := by unfold radians; ring
  rw [h, Real.sin_neg, Real.sin_pi_div_six]

lemma cos_radians_30 : Real.cos (radians 30) = Real.sqrt 3 / 2 := by
  have h : radians 30 = Real.pi / 6 := by unfold radians; ring
  rw [h, Real.cos_pi_div_six]

lemma sin_radians_30 : Real.sin (radians 30) = 1 / 2 := by
  have h : radians 30 = Real.pi / 6 := by unfold radians; ring
  rw [h, Real.sin_pi_div_six]

lemma cos_radians_90 : Real.cos (radians 90) = 0 := by
  have h : radians 90 = Real.pi / 2 := by unfold radians; ring
  rw [h, Real.cos_pi_div_two]

lemma sin_radians_90 : Real.sin (radians 90) = 1 := by
  have h : radians 90 = Real.pi / 2 := by unfold radians; ring
  rw [h, Real.sin_pi_div_two]

lemma cos_radians_150 : Real.cos (radians 150) = -(Real.sqrt 3 / 2) := by
  have h : radians 150 = Real.pi - Real.pi / 6 := by unfold radians; ring
  rw [h, Real.cos_pi_sub, Real.cos_pi_div_six]

lemma sin_radians_150 : Real.sin (radians 150) = 1 / 2 := by
  have h : radians 150 = Real.pi - Real.pi / 6 := by unfold radians; ring
  rw [h, Real.sin_pi_sub, Real.sin_pi_div_six]

lemma cos_radians_210 : Real.cos (radians 210) = -(Real.sqrt 3 / 2) := by
  have h : radians 210 = Real.pi / 6 + Real.pi := by unfold radians; ring
  rw [h, Real.cos_add_pi, Real.cos_pi_div_six]

lemma sin_radians_210 : Real.sin (radians 210) = -(1 / 2) := by
  have h : radians 210 = Real.pi / 6 + Real.pi := by unfold radians; ring
  rw [h, Real.sin_add_pi, Real.sin_pi_div_six]

lemma cos_radians_270 : Real.cos (radians 270) = 0 := by
  have h : radians 270 = Real.pi / 2 + Real.pi := by unfold radians; ring
  rw [h, Real.cos_add_pi, Real.cos_pi_div_two]
  norm_num

lemma sin_radians_270 : Real.sin (radians 270) = -1 := by
  have h : radians 270 = Real.pi / 2 + Real.pi := by unfold radians; ring
  rw [h, Real.sin_add_pi, Real.sin_pi_div_two]

/-- The six vertices of `hexPoints`, with the trigonometry evaluated. -/
theorem hexPoints_eq (cx cy r : ℝ) :
    hexPoints cx cy r =
      [(cx + r * (Real.sqrt 3 / 2), cy + r * (-(1 / 2))),
       (cx + r * (Real.sqrt 3 / 2), cy + r * (1 / 2)),
       (cx + r * 0, cy + r * 1),
       (cx + r * (-(Real.sqrt 3 / 2)), cy + r * (1 / 2)),
       (cx + r * (-(Real.sqrt 3 / 2)), cy + r * (-(1 / 2))),
       (cx + r * 0, cy + r * (-1))] := by
  have h0 : List.range 6 = [0, 1, 2, 3, 4, 5] := rfl
  simp only [hexPoints, h0, List.map_cons, List.map_nil]
  norm_num [cos_radians_neg30, sin_radians_neg30, cos_radians_30, sin_radians_30,
    cos_radians_90, sin_radians_90, cos_radians_150, sin_radians_150,
    cos_radians_210, sin_radians_210, cos_radians_270, sin_radians_270]

/-! Convex-hull bounds for the drawn hexagons -/

/-- Points of the convex hull of a finite vertex list satisfy every linear
inequality satisfied by all vertices. -/
lemma convexHull_list_halfspace (l : List (ℝ × ℝ)) (a b t : ℝ)
    (h : ∀ q ∈ l, a * q.1 + b * q.2 ≤ t) :
    ∀ p ∈ convexHull ℝ {q : ℝ × ℝ | q ∈ l}, a * p.1 + b * p.2 ≤ t := by
  have hlin : IsLinearMap ℝ (fun w : ℝ × ℝ => a * w.1 + b * w.2) := by
    constructor
    · intro x y
      simp only [Prod.fst_add, Prod.snd_add]
      ring
    · intro c x
      simp only [Prod.smul_fst, Prod.smul_snd, smul_eq_mul]
      ring
  have hconv : Convex ℝ {w : ℝ × ℝ | a * w.1 + b * w.2 ≤ t} :=
    convex_halfSpace_le hlin t
  intro p hp
  exact convexHull_min (fun q hq => h q hq) hconv hp

/-- Every point of the hull of `hexPoints cx cy r` (with `r ≥ 0`) satisfies
the four half-plane bounds used below: `x ≤ cx + r√3/2`, and
`±(x−cx) ± (y−cy) ≤ r(√3+1)/2`. -/
lemma hexHull_bounds (cx cy r : ℝ) (hr : 0 ≤ r) (x y : ℝ)
    (hp : ((x, y) : ℝ × ℝ) ∈ convexHull ℝ {q : ℝ × ℝ | q ∈ hexPoints cx cy r}) :
    x ≤ cx + r * (Real.sqrt 3 / 2) ∧
    cx + cy - r * ((Real.sqrt 3 + 1) / 2) ≤ x + y ∧
    x + y ≤ cx + cy + r * ((Real.sqrt 3 + 1) / 2) ∧
    x - y ≤ cx - cy + r * ((Real.sqrt 3 + 1) / 2) ∧
    y - x ≤ cy - cx + r * ((Real.sqrt 3 + 1) / 2) := by
  have h3 : Real.sqrt 3 ^ 2 = 3 := Real.sq_sqrt (by norm_num)
  have h3nn : 0 ≤ Real.sqrt 3 := Real.sqrt_nonneg 3
  have h31 : (1 : ℝ) ≤ Real.sqrt 3 := by nlinarith [sq_nonneg (Real.sqrt 3 - 1)]
  refine ⟨?_, ?_, ?_, ?_, ?_⟩
  · have h : 1 * x + 0 * y ≤ cx + r * (Real.sqrt 3 / 2) := by
      refine convexHull_list_halfspace (hexPoints cx cy r) 1 0
        (cx + r * (Real.sqrt 3 / 2)) ?_ (x, y) hp
      intro q hq
      rw [hexPoints_eq] at hq
      fin_cases hq <;> simp only [] <;> nlinarith
    linarith
  · have h : (-1) * x + (-1) * y ≤ -(cx + cy - r * ((Real.sqrt 3 + 1) / 2)) := by
      refine convexHull_list_halfspace (hexPoints cx cy r) (-1) (-1)
        (-(cx + cy - r * ((Real.sqrt 3 + 1) / 2))) ?_ (x, y) hp
      intro q hq
      rw [hexPoints_eq] at hq
      fin_cases hq <;> simp only [] <;> nlinarith
    linarith
  · have h : 1 * x + 1 * y ≤ cx + cy + r * ((Real.sqrt 3 + 1) / 2) := by
      refine convexHull_list_halfspace (hexPoints cx cy r) 1 1
        (cx + cy + r * ((Real.sqrt 3 + 1) / 2)) ?_ (x, y) hp
      intro q hq
      rw [hexPoints_eq] at hq
      fin_cases hq <;> simp only [] <;> nlinarith
    linarith
  · have h : 1 * x + (-1) * y ≤ cx - cy + r * ((Real.sqrt 3 + 1) / 2) := by
      refine convexHull_list_halfspace (hexPoints cx cy r) 1 (-1)
        (cx - cy + r * ((Real.sqrt 3 + 1) / 2)) ?_ (x, y) hp
      intro q hq
      rw [hexPoints_eq] at hq
      fin_cases hq <;> simp only [] <;> nlinarith
    linarith
  · have h : (-1) * x + 1 * y ≤ cy - cx + r * ((Real.sqrt 3 + 1) / 2) := by
      refine convexHull_list_halfspace (hexPoints cx cy r) (-1) 1
        (cy - cx + r * ((Real.sqrt 3 + 1) / 2)) ?_ (x, y) hp
      intro q hq
      rw [hexPoints_eq] at hq
      fin_cases hq <;> simp only [] <;> nlinarith
    linarith

/-- Rational lower bound for `√3`. -/
lemma sqrt3_lower : (1.73 : ℝ) < Real.sqrt 3 :=
  (Real.lt_sqrt (by norm_num)).mpr (by norm_num)

/-- Rational upper bound for `√3`. -/
lemma sqrt3_upper : Real.sqrt 3 < 1.74 := by
  have h3 : Real.sqrt 3 ^ 2 = 3 := Real.sq_sqrt (by norm_num)
  have h3nn : 0 ≤ Real.sqrt 3 := Real.sqrt_nonneg 3
  nlinarith [sq_nonneg (Real.sqrt 3 - 1.74)]

/-- The hexagon's center lies in the hull of its vertices (midpoint of the
top and bottom vertices). -/
lemma center_mem_hexHull (cx cy r : ℝ) :
    ((cx, cy) : ℝ × ℝ) ∈ convexHull ℝ {q : ℝ × ℝ | q ∈ hexPoints cx cy r} := by
  have h2 : ((cx + r * 0, cy + r * 1) : ℝ × ℝ) ∈
      convexHull ℝ {q : ℝ × ℝ | q ∈ hexPoints cx cy r} := by
    apply subset_convexHull
    simp [hexPoints_eq]
  have h5 : ((cx + r * 0, cy + r * (-1)) : ℝ × ℝ) ∈
      convexHull ℝ {q : ℝ × ℝ | q ∈ hexPoints cx cy r} := by
    apply subset_convexHull
    simp [hexPoints_eq]
  have hmix := (convex_convexHull ℝ {q : ℝ × ℝ | q ∈ hexPoints cx cy r})
    h2 h5 (by norm_num : (0:ℝ) ≤ 1/2) (by norm_num : (0:ℝ) ≤ 1/2) (by norm_num)
  have heq : ((1:ℝ)/2) • ((cx + r * 0, cy + r * 1) : ℝ × ℝ) +
      ((1:ℝ)/2) • ((cx + r * 0, cy + r * (-1)) : ℝ × ℝ) = ((cx, cy) : ℝ × ℝ) := by
    simp only [Prod.smul_mk, smul_eq_mul, Prod.mk_add_mk, Prod.mk.injEq]
    constructor <;> ring
  rwa [heq] at hmix

/-- Every point of the horizontal segment from the center to the midpoint of
the hexagon's right edge lies in the hull of its vertices. -/
lemma right_mem_hexHull (cx cy r t : ℝ) (h0 : 0 ≤ t) (h1 : t ≤ 1) :
    ((cx + t * (r * (Real.sqrt 3 / 2)), cy) : ℝ × ℝ) ∈
      convexHull ℝ {q : ℝ × ℝ | q ∈ hexPoints cx cy r} := by
  have hv0 : ((cx + r * (Real.sqrt 3 / 2), cy + r * (-(1/2))) : ℝ × ℝ) ∈
      convexHull ℝ {q : ℝ × ℝ | q ∈ hexPoints cx cy r} := by
    apply subset_convexHull
    simp [hexPoints_eq]
  have hv1 : ((cx + r * (Real.sqrt 3 / 2), cy + r * (1/2)) : ℝ × ℝ) ∈
      convexHull ℝ {q : ℝ × ℝ | q ∈ hexPoints cx cy r} := by
    apply subset_convexHull
    simp [hexPoints_eq]
  have hmid := (convex_convexHull ℝ {q : ℝ × ℝ | q ∈ hexPoints cx cy r})
    hv0 hv1 (by norm_num : (0:ℝ) ≤ 1/2) (by norm_num : (0:ℝ) ≤ 1/2) (by norm_num)
  have hcen := center_mem_hexHull cx cy r
  have hmix := (convex_convexHull ℝ {q : ℝ × ℝ | q ∈ hexPoints cx cy r})
    hcen hmid (by linarith : (0:ℝ) ≤ 1 - t) h0 (by ring)
  have heq : (1 - t) • ((cx, cy) : ℝ × ℝ) +
      t • (((1:ℝ)/2) • ((cx + r * (Real.sqrt 3 / 2), cy + r * (-(1/2))) : ℝ × ℝ) +
        ((1:ℝ)/2) • ((cx + r * (Real.sqrt 3 / 2), cy + r * (1/2)) : ℝ × ℝ)) =
      ((cx + t * (r * (Real.sqrt 3 / 2)), cy) : ℝ × ℝ) := by
    simp only [Prod.smul_mk, smul_eq_mul, Prod.mk_add_mk, Prod.mk.injEq]
    constructor <;> ring
  rwa [heq] at hmix

/-! Evaluating the rasterizer -/

open Classical in
lemma renderOps_cons (op : PolygonOp) (ops : List PolygonOp) (bg : RGBA) (p : ℝ × ℝ) :
    renderOps (op :: ops) bg p =
      renderOps ops
        (if p ∈ convexHull ℝ {q : ℝ × ℝ | q ∈ op.points} then op.fill else bg) p := by
  simp only [renderOps, List.foldl_cons]

lemma renderOps_nil (bg : RGBA) (p : ℝ × ℝ) : renderOps [] bg p = bg := rfl

/-- A point covered by no drawn polygon keeps the background color. -/
lemma renderOps_eq_bg (ops : List PolygonOp) (bg : RGBA) (p : ℝ × ℝ)
    (h : ∀ op ∈ ops, p ∉ convexHull ℝ {q : ℝ × ℝ | q ∈ op.points}) :
    renderOps ops bg p = bg := by
  induction ops with
  | nil => rfl
  | cons op ops ih =>
    rw [renderOps_cons, if_neg (h op (List.mem_cons_self op ops))]
    exact ih fun o ho => h o (List.mem_cons_of_mem op ho)

/-! The claims -/

lemma radius_cast (size : ℕ) :
    ((((size / 2 : ℕ) : ℤ) - 1 : ℤ) : ℝ) = ((size / 2 : ℕ) : ℝ) - 1 := by
  rw [Int.cast_sub, Int.cast_natCast, Int.cast_one]

lemma halo_radius_cast (size : ℕ) :
    ((((size / 2 : ℕ) : ℤ) - 1 + 2 : ℤ) : ℝ) = (((size / 2 : ℕ) : ℝ) - 1) + 2 := by
  rw [Int.cast_add, Int.cast_sub, Int.cast_natCast, Int.cast_one, Int.cast_two]

lemma hexPoints_length (cx cy r : ℝ) : (hexPoints cx cy r).length = 6 := by
  simp only [hexPoints, List.length_map, List.length_range]

lemma hexPoints_getElem (cx cy r : ℝ) (i : ℕ) (hi : i < 6) :
    (hexPoints cx cy r)[i]? =
      some (cx + r * Real.cos (radians ((60 * (i : ℤ) - 30 : ℤ) : ℝ)),
            cy + r * Real.sin (radians ((60 * (i : ℤ) - 30 : ℤ) : ℝ))) := by
  simp only [hexPoints, List.getElem?_map, List.getElem?_range hi]
  rfl

/-- C1: for every size, the renderer computes the six primary hexagon
vertices, for `i = 0..5` in order, as
`(cx + r·cos(radians(60i − 30)), cy + r·sin(radians(60i − 30)))` with
`(cx, cy) = (size // 2, size // 2)` and `r = size // 2 − 1`; the primary
hexagon is the last polygon drawn in both modes. -/
theorem claim1_primary_vertex_formula (size : ℕ) (color : RGBA) (has_halo : Bool)
    (i : ℕ) (hi : i < 6) :
    ∃ op : PolygonOp,
      (create_hexagon_icon_ops size color has_halo).getLast? = some op ∧
      op.points.length = 6 ∧
      op.points[i]? = some (specPrimaryVertex size i) := by
  have hcast : (((60 * (i : ℤ) - 30 : ℤ)) : ℝ) = 60 * (i : ℝ) - 30 := by push_cast; ring
  have hrad := radius_cast size
  cases has_halo with
  | false =>
    refine ⟨⟨hexPoints ((size / 2 : ℕ)) ((size / 2 : ℕ))
        (((((size / 2 : ℕ) : ℤ) - 1 : ℤ)) : ℝ), color, none⟩, ?_, ?_, ?_⟩
    · simp [create_hexagon_icon_ops]
    · exact hexPoints_length _ _ _
    · rw [hexPoints_getElem _ _ _ i hi, hcast, hrad]
      rfl
  | true =>
    refine ⟨⟨hexPoints ((size / 2 : ℕ)) ((size / 2 : ℕ))
        (((((size / 2 : ℕ) : ℤ) - 1 : ℤ)) : ℝ), color, none⟩, ?_, ?_, ?_⟩
    · simp [create_hexagon_icon_ops]
    · exact hexPoints_length _ _ _
    · rw [hexPoints_getElem _ _ _ i hi, hcast, hrad]
      rfl

/-- Witness for C1 at `size = 16`, `i = 0`. -/
theorem claim1_primary_vertex_formula_witness :
    (0 < 6) ∧
    ∃ op : PolygonOp,
      (create_hexagon_icon_ops 16 green_color false).getLast? = some op ∧
      op.points.length = 6 ∧
      op.points[0]? = some (specPrimaryVertex 16 0) :=
  ⟨by norm_num, claim1_primary_vertex_formula 16 green_color false 0 (by norm_num)⟩

/-- The draw trace in active mode, with the integer radii written as reals. -/
lemma ops_true_eq (size : ℕ) (color : RGBA) :
    create_hexagon_icon_ops size color true =
      [⟨hexPoints ((size / 2 : ℕ)) ((size / 2 : ℕ))
          ((((size / 2 : ℕ) : ℝ) - 1) + 2), redColor, some redColor⟩,
       ⟨hexPoints ((size / 2 : ℕ)) ((size / 2 : ℕ))
          (((size / 2 : ℕ) : ℝ) - 1), color, none⟩] := by
  rw [← halo_radius_cast size, ← radius_cast size]
  rfl

/-- The draw trace in normal mode. -/
lemma ops_false_eq (size : ℕ) (color : RGBA) :
    create_hexagon_icon_ops size color false =
      [⟨hexPoints ((size / 2 : ℕ)) ((size / 2 : ℕ))
          (((size / 2 : ℕ) : ℝ) - 1), color, none⟩] := by
  rw [← radius_cast size]
  rfl

/-- C2: with `has_halo` the renderer draws, before the primary hexagon, a
second hexagon with radius `r + 2` at the same six angles around the same
center, filled and outlined in opaque red `(255,0,0,255)`; without
`has_halo` no such polygon is drawn, only the primary one. -/
theorem claim2_halo_trace (size : ℕ) (color : RGBA) :
    create_hexagon_icon_ops size color true =
      [⟨hexPoints ((size / 2 : ℕ)) ((size / 2 : ℕ))
          ((((size / 2 : ℕ) : ℝ) - 1) + 2), redColor, some redColor⟩,
       ⟨hexPoints ((size / 2 : ℕ)) ((size / 2 : ℕ))
          (((size / 2 : ℕ) : ℝ) - 1), color, none⟩] ∧
    create_hexagon_icon_ops size color false =
      [⟨hexPoints ((size / 2 : ℕ)) ((size / 2 : ℕ))
          (((size / 2 : ℕ) : ℝ) - 1), color, none⟩] :=
  ⟨ops_true_eq size color, ops_false_eq size color⟩

/-- C3: every invocation writes exactly three files into `assets/`, one per
size in {16, 48, 128}: `icon{size}.png` rendered without halo when
`--active` is absent from the arguments, `icon{size}_active.png` rendered
with halo when it is present. -/
theorem claim3_driver_files (argv : List String) :
    generatedFiles argv =
      if "--active" ∈ argv then
        [("assets/icon16_active.png", create_hexagon_icon 16 green_color true),
         ("assets/icon48_active.png", create_hexagon_icon 48 green_color true),
         ("assets/icon128_active.png", create_hexagon_icon 128 green_color true)]
      else
        [("assets/icon16.png", create_hexagon_icon 16 green_color false),
         ("assets/icon48.png", create_hexagon_icon 48 green_color false),
         ("assets/icon128.png", create_hexagon_icon 128 green_color false)] := by
  by_cases h : "--active" ∈ argv
  · rw [if_pos h]
    simp only [generatedFiles, decide_eq_true h]
    rfl
  · rw [if_neg h]
    simp only [generatedFiles, decide_eq_false h]
    rfl

/-- C4: the renderer allocates a square `size × size` RGBA canvas whose
every pixel is initially the fully transparent `(0,0,0,0)` (alpha 0), and
the image it saves has pixel dimensions exactly `size × size`. -/
theorem claim4_canvas_square_transparent (size : ℕ) (color : RGBA) (has_halo : Bool) :
    (Image_new size).width = size ∧ (Image_new size).height = size ∧
    (∀ x y : ℕ, ((Image_new size).pixel x y).a = 0) ∧
    (create_hexagon_icon size color has_halo).width = size ∧
    (create_hexagon_icon size color has_halo).height = size :=
  ⟨rfl, rfl, fun _ _ => rfl, rfl, rfl⟩

/-- C10: the files the script writes, names and contents alike, depend on
the argument list only through membership of the exact token `--active`:
two argument lists agreeing on that membership generate identical files. -/
theorem claim10_only_active_matters (a₁ a₂ : List String)
    (h : ("--active" ∈ a₁) ↔ ("--active" ∈ a₂)) :
    generatedFiles a₁ = generatedFiles a₂ := by
  have hd : decide ("--active" ∈ a₁) = decide ("--active" ∈ a₂) :=
    decide_eq_decide.mpr h
  simp only [generatedFiles, hd]

/-- Witness for C10: the argument lists `["./gen.py", "x"]` and `["other"]`
agree on not containing `--active`. -/
theorem claim10_only_active_matters_witness :
    (("--active" ∈ (["./gen.py", "x"] : List String)) ↔
      ("--active" ∈ (["other"] : List String))) ∧
    generatedFiles ["./gen.py", "x"] = generatedFiles ["other"] :=
  ⟨by decide, claim10_only_active_matters ["./gen.py", "x"] ["other"] (by decide)⟩

/-! Idempotence of the filesystem effect (C8) -/

lemma fsWriteAll_cons (fs : FS) (p : String × Img) (l : List (String × Img)) :
    fsWriteAll fs (p :: l) = fsWriteAll (fsWrite fs p.1 p.2) l := rfl

lemma fsWriteAll_not_mem (l : List (String × Img)) (fs : FS) (k : String)
    (hk : k ∉ l.map Prod.fst) : fsWriteAll fs l k = fs k := by
  induction l generalizing fs with
  | nil => rfl
  | cons p t ih =>
    simp only [List.map_cons, List.mem_cons, not_or] at hk
    rw [fsWriteAll_cons, ih _ hk.2]
    simp only [fsWrite, if_neg hk.1]

lemma fsWriteAll_mem (l : List (String × Img)) (g h : FS) (k : String)
    (hk : k ∈ l.map Prod.fst) : fsWriteAll g l k = fsWriteAll h l k := by
  induction l generalizing g h with
  | nil => simp at hk
  | cons p t ih =>
    rw [fsWriteAll_cons, fsWriteAll_cons]
    by_cases ht : k ∈ t.map Prod.fst
    · exact ih _ _ ht
    · simp only [List.map_cons, List.mem_cons] at hk
      have hkp : k = p.1 := hk.resolve_right ht
      rw [fsWriteAll_not_mem t _ k ht, fsWriteAll_not_mem t _ k ht]
      simp only [fsWrite, if_pos hkp]

/-- C8: the script's effect on the filesystem is idempotent — a second
invocation with the same argument list overwrites each of the three files
with identical content, leaving the filesystem unchanged.  The generated
contents depend only on the arguments (no randomness, time or environment
input), so both invocations write the same bytes. -/
theorem claim8_idempotent (argv : List String) (fs : FS) :
    runScript argv (runScript argv fs) = runScript argv fs := by
  funext k
  by_cases hk : k ∈ (generatedFiles argv).map Prod.fst
  · exact fsWriteAll_mem (generatedFiles argv) _ _ k hk
  · rw [runScript, fsWriteAll_not_mem _ _ k hk]

/-! Corner pixels (C5) -/

lemma icon_pixel_def (size : ℕ) (color : RGBA) (has_halo : Bool) (x y : ℕ) :
    (create_hexagon_icon size color has_halo).pixel x y =
      renderOps (create_hexagon_icon_ops size color has_halo) bgColor
        ((x : ℝ), (y : ℝ)) := rfl

/-- For a hexagon centered at `(c, c)` with `c ≥ 8` and radius at most
`c + 1`, none of the four canvas corners lies in its hull. -/
lemma corner_not_mem (c r x y : ℝ) (hr : 0 ≤ r) (hc : 8 ≤ c) (hrc : r ≤ c + 1)
    (hx : x = 0 ∨ x = 2 * c - 1) (hy : y = 0 ∨ y = 2 * c - 1) :
    ((x, y) : ℝ × ℝ) ∉ convexHull ℝ {q : ℝ × ℝ | q ∈ hexPoints c c r} := by
  intro hmem
  obtain ⟨hb1, hb2, hb3, hb4, hb5⟩ := hexHull_bounds c c r hr x y hmem
  have h174 := sqrt3_upper
  have h3nn : 0 ≤ Real.sqrt 3 := Real.sqrt_nonneg 3
  have hkey : r * ((Real.sqrt 3 + 1) / 2) ≤ (c + 1) * 1.37 := by
    have h0 : 0 ≤ (Real.sqrt 3 + 1) / 2 := by linarith
    have ha : r * ((Real.sqrt 3 + 1) / 2) ≤ (c + 1) * ((Real.sqrt 3 + 1) / 2) :=
      mul_le_mul_of_nonneg_right hrc h0
    have hb : (c + 1) * ((Real.sqrt 3 + 1) / 2) ≤ (c + 1) * 1.37 :=
      mul_le_mul_of_nonneg_left (by linarith) (by linarith)
    linarith
  rcases hx with hx | hx <;> rcases hy with hy | hy <;> subst hx <;> subst hy
  · linarith
  · linarith
  · linarith
  · linarith

/-- Any corner pixel of the rendered icon keeps the transparent background,
as long as the canvas is at least 16 pixels wide. -/
lemma icon_corner_bg (size : ℕ) (color : RGBA) (has_halo : Bool) (x y : ℕ)
    (hc : 8 ≤ ((size / 2 : ℕ) : ℝ))
    (hx : (x : ℝ) = 0 ∨ (x : ℝ) = 2 * ((size / 2 : ℕ) : ℝ) - 1)
    (hy : (y : ℝ) = 0 ∨ (y : ℝ) = 2 * ((size / 2 : ℕ) : ℝ) - 1) :
    (create_hexagon_icon size color has_halo).pixel x y = bgColor := by
  rw [icon_pixel_def]
  apply renderOps_eq_bg
  intro op hop
  cases has_halo with
  | true =>
    rw [ops_true_eq] at hop
    simp only [List.mem_cons, List.not_mem_nil, or_false] at hop
    rcases hop with hop | hop <;> subst hop
    · exact corner_not_mem _ _ _ _ (by linarith) hc (by linarith) hx hy
    · exact corner_not_mem _ _ _ _ (by linarith) hc (by linarith) hx hy
  | false =>
    rw [ops_false_eq] at hop
    simp only [List.mem_cons, List.not_mem_nil, or_false] at hop
    subst hop
    exact corner_not_mem _ _ _ _ (by linarith) hc (by linarith) hx hy

/-- C5: for each size in {16, 48, 128} and in both modes, the four corner
pixels `(0,0)`, `(size−1,0)`, `(0,size−1)`, `(size−1,size−1)` of the output
image are the fully transparent background `(0,0,0,0)`: no drawn hexagon
covers a corner. -/
theorem claim5_corners_transparent (size : ℕ)
    (hs : size = 16 ∨ size = 48 ∨ size = 128) (has_halo : Bool) (x y : ℕ)
    (hx : x = 0 ∨ x = size - 1) (hy : y = 0 ∨ y = size - 1) :
    (create_hexagon_icon size green_color has_halo).pixel x y = bgColor := by
  apply icon_corner_bg
  · rcases hs with h | h | h <;> subst h <;> norm_num
  · rcases hs with h | h | h <;> subst h <;>
      rcases hx with h' | h' <;> subst h' <;> norm_num
  · rcases hs with h | h | h <;> subst h <;>
      rcases hy with h' | h' <;> subst h' <;> norm_num

/-- Witness for C5 at `size = 16`, active mode, corner `(15, 0)`. -/
theorem claim5_corners_transparent_witness :
    ((16 : ℕ) = 16 ∨ (16 : ℕ) = 48 ∨ (16 : ℕ) = 128) ∧
    ((15 : ℕ) = 0 ∨ (15 : ℕ) = 16 - 1) ∧ ((0 : ℕ) = 0 ∨ (0 : ℕ) = 16 - 1) ∧
    (create_hexagon_icon 16 green_color true).pixel 15 0 = bgColor :=
  ⟨by norm_num, by norm_num, by norm_num,
    claim5_corners_transparent 16 (by norm_num) true 15 0 (by norm_num) (by norm_num)⟩

/-- C6: in every size and both modes, the pixel at the canvas center
`(size // 2, size // 2)` has exactly the primary fill color; in active mode
the primary fill, drawn last, overwrites the red halo there. -/
theorem claim6_center_primary_color (size : ℕ)
    (_hs : size = 16 ∨ size = 48 ∨ size = 128) (has_halo : Bool) :
    (create_hexagon_icon size green_color has_halo).pixel (size / 2) (size / 2) =
      green_color := by
  rw [icon_pixel_def]
  cases has_halo with
  | true =>
    rw [ops_true_eq, renderOps_cons, renderOps_cons, renderOps_nil,
      if_pos (center_mem_hexHull _ _ _)]
  | false =>
    rw [ops_false_eq, renderOps_cons, renderOps_nil,
      if_pos (center_mem_hexHull _ _ _)]

/-- Witness for C6 at `size = 48`, active mode. -/
theorem claim6_center_primary_color_witness :
    ((48 : ℕ) = 16 ∨ (48 : ℕ) = 48 ∨ (48 : ℕ) = 128) ∧
    (create_hexagon_icon 48 green_color true).pixel (48 / 2) (48 / 2) =
      green_color :=
  ⟨by norm_num, claim6_center_primary_color 48 (by norm_num) true⟩

/-! The red halo pixel (C7) -/

open Classical in
/-- In normal mode the image has only the green fill and the transparent
background; no pixel is the halo red. -/
lemma normal_mode_no_red (size : ℕ) (x y : ℕ) :
    (create_hexagon_icon size green_color false).pixel x y ≠ redColor := by
  rw [icon_pixel_def, ops_false_eq, renderOps_cons, renderOps_nil]
  by_cases h : (((x : ℝ), (y : ℝ)) : ℝ × ℝ) ∈ convexHull ℝ
      {q : ℝ × ℝ | q ∈ hexPoints ((size / 2 : ℕ)) ((size / 2 : ℕ))
        (((size / 2 : ℕ) : ℝ) - 1)}
  · rw [if_pos h]
    show green_color ≠ redColor
    decide
  · rw [if_neg h]
    show bgColor ≠ redColor
    decide

/-- A pixel on the center row, strictly right of the primary hexagon but
within the halo hexagon, is painted red in active mode. -/
lemma active_red_pixel (size : ℕ) (x y : ℕ) (d : ℝ)
    (hc1 : 1 ≤ ((size / 2 : ℕ) : ℝ))
    (hx : (x : ℝ) = ((size / 2 : ℕ) : ℝ) + d)
    (hy : (y : ℝ) = ((size / 2 : ℕ) : ℝ))
    (hd0 : 0 ≤ d)
    (hdR : 2 * d ≤ (((size / 2 : ℕ) : ℝ) + 1) * Real.sqrt 3)
    (hdr : (((size / 2 : ℕ) : ℝ) - 1) * Real.sqrt 3 < 2 * d) :
    (create_hexagon_icon size green_color true).pixel x y = redColor := by
  have h3nn : 0 ≤ Real.sqrt 3 := Real.sqrt_nonneg 3
  have hs3pos : 0 < Real.sqrt 3 := lt_of_lt_of_le (by norm_num) sqrt3_lower.le
  set c : ℝ := ((size / 2 : ℕ) : ℝ) with hcdef
  rw [icon_pixel_def, ops_true_eq, renderOps_cons, renderOps_cons, renderOps_nil]
  have hnotmem : (((x : ℝ), (y : ℝ)) : ℝ × ℝ) ∉ convexHull ℝ
      {q : ℝ × ℝ | q ∈ hexPoints c c (c - 1)} := by
    intro hmem
    have hb := (hexHull_bounds c c (c - 1) (by linarith) _ _ hmem).1
    rw [hx] at hb
    nlinarith
  have hR0 : (0 : ℝ) < (c + 1) * Real.sqrt 3 := mul_pos (by linarith) hs3pos
  have ht0 : 0 ≤ 2 * d / ((c + 1) * Real.sqrt 3) :=
    div_nonneg (by linarith) hR0.le
  have ht1 : 2 * d / ((c + 1) * Real.sqrt 3) ≤ 1 := by
    rw [div_le_one hR0]
    linarith
  have hmm := right_mem_hexHull c c ((c - 1) + 2)
    (2 * d / ((c + 1) * Real.sqrt 3)) ht0 ht1
  have hc1' : c + 1 ≠ 0 := by linarith
  have hs3 : Real.sqrt 3 ≠ 0 := ne_of_gt hs3pos
  have harg : c + (2 * d / ((c + 1) * Real.sqrt 3)) *
      (((c - 1) + 2) * (Real.sqrt 3 / 2)) = (x : ℝ) := by
    rw [hx]
    field_simp
    ring
  have hpt : (((x : ℝ), (y : ℝ)) : ℝ × ℝ) =
      ((c + (2 * d / ((c + 1) * Real.sqrt 3)) *
        (((c - 1) + 2) * (Real.sqrt 3 / 2)), c) : ℝ × ℝ) := by
    rw [Prod.mk.injEq]
    exact ⟨harg.symm, hy⟩
  have hmem : (((x : ℝ), (y : ℝ)) : ℝ × ℝ) ∈ convexHull ℝ
      {q : ℝ × ℝ | q ∈ hexPoints c c ((c - 1) + 2)} := by
    rw [hpt]
    exact hmm
  rw [if_neg hnotmem, if_pos hmem]

/-- C7: for each size in {16, 48, 128}, the active-mode image contains a
pixel that is exactly the opaque red `(255,0,0,255)`, while the normal-mode
image of the same size contains no such pixel. -/
theorem claim7_red_in_active_only (size : ℕ)
    (hs : size = 16 ∨ size = 48 ∨ size = 128) :
    (∃ x y : ℕ, x < size ∧ y < size ∧
       (create_hexagon_icon size green_color true).pixel x y = redColor) ∧
    (∀ x y : ℕ,
       (create_hexagon_icon size green_color false).pixel x y ≠ redColor) := by
  refine ⟨?_, fun x y => normal_mode_no_red size x y⟩
  have hlo := sqrt3_lower
  have hhi := sqrt3_upper
  rcases hs with h | h | h <;> subst h
  · exact ⟨15, 8, by norm_num, by norm_num,
      active_red_pixel 16 15 8 7 (by norm_num) (by norm_num) (by norm_num)
        (by norm_num) (by norm_num; nlinarith) (by norm_num; nlinarith)⟩
  · exact ⟨45, 24, by norm_num, by norm_num,
      active_red_pixel 48 45 24 21 (by norm_num) (by norm_num) (by norm_num)
        (by norm_num) (by norm_num; nlinarith) (by norm_num; nlinarith)⟩
  · exact ⟨119, 64, by norm_num, by norm_num,
      active_red_pixel 128 119 64 55 (by norm_num) (by norm_num) (by norm_num)
        (by norm_num) (by norm_num; nlinarith) (by norm_num; nlinarith)⟩

/-- Witness for C7 at `size = 128`. -/
theorem claim7_red_in_active_only_witness :
    ((128 : ℕ) = 16 ∨ (128 : ℕ) = 48 ∨ (128 : ℕ) = 128) ∧
    ((∃ x y : ℕ, x < 128 ∧ y < 128 ∧
       (create_hexagon_icon 128 green_color true).pixel x y = redColor) ∧
     (∀ x y : ℕ,
       (create_hexagon_icon 128 green_color false).pixel x y ≠ redColor)) :=
  ⟨by norm_num, claim7_red_in_active_only 128 (by norm_num)⟩

/-! The halo always overflows the canvas (C9) -/

/-- C9: in active mode the halo vertex at `i = 2` (angle 90°) has
`y`-coordinate `size // 2 + (size // 2 + 1)`, which is at least `size`, so
it lies below the last valid pixel row `size − 1`: the halo polygon always
extends past the canvas.  (Proved for every size, in particular
{16, 48, 128}.) -/
theorem claim9_halo_vertex_off_canvas (size : ℕ)
    (_hs : size = 16 ∨ size = 48 ∨ size = 128) :
    ∃ op : PolygonOp,
      (create_hexagon_icon_ops size green_color true).head? = some op ∧
      ∃ v : ℝ × ℝ, op.points[2]? = some v ∧
        v.2 = ((size / 2 : ℕ) : ℝ) + (((size / 2 : ℕ) : ℝ) + 1) ∧
        (size : ℝ) ≤ v.2 := by
  refine ⟨⟨hexPoints ((size / 2 : ℕ)) ((size / 2 : ℕ))
      ((((size / 2 : ℕ) : ℝ) - 1) + 2), redColor, some redColor⟩, ?_, ?_⟩
  · rw [ops_true_eq]
    rfl
  · have hang : ((60 * ((2 : ℕ) : ℤ) - 30 : ℤ) : ℝ) = 90 := by norm_num
    have hget := hexPoints_getElem ((size / 2 : ℕ)) ((size / 2 : ℕ))
      ((((size / 2 : ℕ) : ℝ) - 1) + 2) 2 (by norm_num)
    rw [hang] at hget
    refine ⟨_, hget, ?_, ?_⟩
    · show ((size / 2 : ℕ) : ℝ) +
        ((((size / 2 : ℕ) : ℝ) - 1) + 2) * Real.sin (radians 90) =
        ((size / 2 : ℕ) : ℝ) + (((size / 2 : ℕ) : ℝ) + 1)
      rw [sin_radians_90]
      ring
    · show (size : ℝ) ≤ ((size / 2 : ℕ) : ℝ) +
        ((((size / 2 : ℕ) : ℝ) - 1) + 2) * Real.sin (radians 90)
      rw [sin_radians_90]
      have hn : size ≤ 2 * (size / 2) + 1 := by omega
      have hn' : (size : ℝ) ≤ ((2 * (size / 2) + 1 : ℕ) : ℝ) := Nat.cast_le.mpr hn
      push_cast at hn'
      linarith

/-- Witness for C9 at `size = 16`. -/
theorem claim9_halo_vertex_off_canvas_witness :
    ((16 : ℕ) = 16 ∨ (16 : ℕ) = 48 ∨ (16 : ℕ) = 128) ∧
    ∃ op : PolygonOp,
      (create_hexagon_icon_ops 16 green_color true).head? = some op ∧
      ∃ v : ℝ × ℝ, op.points[2]? = some v ∧
        v.2 = ((16 / 2 : ℕ) : ℝ) + (((16 / 2 : ℕ) : ℝ) + 1) ∧
        ((16 : ℕ) : ℝ) ≤ v.2 :=
  ⟨by norm_num, claim9_halo_vertex_off_canvas 16 (by norm_num)⟩

end BggIcons
